import Mathlib

/-!
Shallow embedding of the CUE-sheet parser of the `hermes` repository
(`src/cue.rs`, `src/cue/parser.rs`, `src/cue/error.rs`) and proofs about it.

Rust `&str` / `String` values are modelled as `List Char` (a valid UTF-8
string seen as its decoded characters); byte positions are tracked through
each character's UTF-8 size, so that the byte-index slices performed by the
source are modelled faithfully, including the cases where they panic.
Fallible Rust code returns a three-way result: `ok`, `err` (an
`anyhow::Error`, modelled as its message `String`), or `panic` (an abort:
out-of-bounds slice or index). `u64`/`u32` arithmetic is `Nat` with explicit
reduction modulo `2 ^ 64` / `2 ^ 32` where the source can overflow
(release-profile wrapping semantics).
-/

namespace Hermes

/-- Rust strings, seen as their decoded characters. -/
abbrev Str := List Char

/-- UTF-8 size in bytes of one character (`char::len_utf8`). -/
def csize (c : Char) : Nat :=
  if c.toNat < 0x80 then 1
  else if c.toNat < 0x800 then 2
  else if c.toNat < 0x10000 then 3
  else 4

/-- Byte length of a string (Rust `str::len`). -/
def utf8Len (s : Str) : Nat := s.foldr (fun c n => csize c + n) 0

/-- Model of `&s[k..]` for a byte offset `k`: `none` models the panic when `k` is not
a character boundary or is past the end of the string. -/
def sliceFrom : Str → Nat → Option Str
  | s, 0 => some s
  | [], _ + 1 => none
  | c :: rest, k + 1 =>
    if k + 1 < csize c then none
    else sliceFrom rest (k + 1 - csize c)

/-- Model of `str::char_indices`, starting from byte offset `off`. -/
def charIdx (off : Nat) : Str → List (Nat × Char)
  | [] => []
  | c :: rest => (off, c) :: charIdx (off + csize c) rest

/-- Rust `char::is_whitespace` (the Unicode `White_Space` property),
used by `str::trim_start` / `str::trim`. -/
def rustWs (c : Char) : Bool :=
  let n := c.toNat
  n = 0x09 || n = 0x0A || n = 0x0B || n = 0x0C || n = 0x0D || n = 0x20 ||
  n = 0x85 || n = 0xA0 || n = 0x1680 || (0x2000 ≤ n && n ≤ 0x200A) ||
  n = 0x2028 || n = 0x2029 || n = 0x202F || n = 0x205F || n = 0x3000

/-- Rust `char::is_ascii_whitespace`: space, tab, newline, form feed,
carriage return. -/
def isAsciiWs (c : Char) : Bool :=
  c = ' ' || c = '\t' || c = '\n' || c = '\x0C' || c = '\r'

/-- Rust `str::trim_start`. -/
def rustTrimStart (s : Str) : Str := s.dropWhile rustWs

/-- Rust `str::trim_end`. -/
def rustTrimEnd (s : Str) : Str := (s.reverse.dropWhile rustWs).reverse

/-- Rust `str::trim`. -/
def rustTrim (s : Str) : Str := rustTrimEnd (rustTrimStart s)

/-- Model of `String::to_lowercase` as used on field names: ASCII
lowercasing (Rust's full Unicode lowercasing coincides with it on every
field name the parser compares against). -/
def lowercase (s : Str) : Str := s.map Char.toLower

/-- Result of a fallible Rust computation: success, an error value, or a
panic (abort). -/
inductive RResult (ε α : Type) where
  | ok : α → RResult ε α
  | err : ε → RResult ε α
  | panic : RResult ε α
deriving DecidableEq, Repr

/-- Model of `cue::error::Error`: a message together with the 0-based line index. -/
structure PError where
  ln : Nat
  msg : String
deriving DecidableEq, Repr

/-- Model of `parser::consume_space1`: strip a non-empty run of leading spaces/tabs;
`none` when the input is empty, starts with a non-space byte, or is all
spaces/tabs. -/
def consume_space1 (input : Str) : Option Str :=
  match input with
  | [] => none
  | c :: _ =>
    if c = ' ' || c = '\t' then
      let rest := input.dropWhile (fun c => c = ' ' || c = '\t')
      if rest = [] then none else some rest
    else none

/-- Model of `parser::next_word`: skip ASCII whitespace, return
`(remainder-after-word, word)`; `none` when there is no word. -/
def next_word (s : Str) : Option (Str × Str) :=
  let s2 := s.dropWhile isAsciiWs
  if s2 = [] then none
  else some (s2.dropWhile (fun c => !isAsciiWs c), s2.takeWhile (fun c => !isAsciiWs c))

/-- Model of `parser::escaped`. -/
def escaped (c : Char) : Char :=
  if c = 'n' then '\n'
  else if c = 't' then '\t'
  else if c = 'r' then '\r'
  else c

/-- The unquoted branch of `parser::parse_str`: the loop over
`char_indices`, carrying the `end` byte index and the output buffer.
On loop exit the source slices `&input[end + 1..]`, which panics when
`end + 1` is not a character boundary (e.g. empty input, or the last
consumed character is multi-byte). The `debug_assert!` in the source is a
no-op in release builds and is not modelled. -/
def psUnquoted (inp : Str) : List (Nat × Char) → Nat → Str → RResult String (Str × Str)
  | [], e, buf =>
    (match sliceFrom inp (e + 1) with
     | some rest => .ok (rest, buf)
     | none => .panic)
  | (i, c) :: chars, e, buf =>
    if c = ' ' || c = '\t' || c = '\r' || c = '\n' then
      (match sliceFrom inp (e + 1) with
       | some rest => .ok (rest, buf)
       | none => .panic)
    else if c = '\\' then
      match chars with
      | (j, esc) :: chars2 => psUnquoted inp chars2 j (buf ++ [escaped esc])
      | [] => .ok ([], buf ++ ['\\'])
    else
      psUnquoted inp chars i (buf ++ [c])

/-- The quoted branch of `parser::parse_str`: loop after the opening
quote. -/
def psQuoted (inp : Str) : List (Nat × Char) → Str → RResult String (Str × Str)
  | [], _ => .err "unterminated double-quoted string"
  | (i, c) :: chars, buf =>
    if c = '"' then
      (match sliceFrom inp (i + 1) with
       | some rest => .ok (rest, buf)
       | none => .panic)
    else if c = '\\' then
      match chars with
      | (_, esc) :: chars2 => psQuoted inp chars2 (buf ++ [escaped esc])
      | [] => .err "unterminated double-quoted string"
    else psQuoted inp chars (buf ++ [c])

/-- Model of `parser::parse_str`: returns `(remaining-input, parsed-string)`. -/
def parse_str (input : Str) : RResult String (Str × Str) :=
  let inp := rustTrimStart input
  if inp.head? = some '"' then
    psQuoted inp (charIdx 0 inp).tail []
  else
    psUnquoted inp (charIdx 0 inp) 0 []

/-- Model of `parser::parse_val`. -/
def parse_val (input : Str) : RResult String Str :=
  let inp := rustTrim input
  if inp = [] then .err "missing value"
  else if 1 < utf8Len inp ∧ inp.head? = some '"' ∧ inp.getLast? = some '"' then
    match parse_str inp with
    | .err e => .err e
    | .panic => .panic
    | .ok (rest, val) =>
      if rustTrim rest = [] then .ok val else .err "too many values in line"
  else .ok inp

/-- Model of `parser::parse_rem`: returns `(key, value)`. -/
def parse_rem (input : Str) : RResult String (Str × Str) :=
  let inp := rustTrimStart input
  if inp = [] then .err "expected 2 values, have none"
  else match parse_str inp with
  | .err e => .err e
  | .panic => .panic
  | .ok (rest, key) =>
    let rest2 := rest.dropWhile (fun c => c = ' ' || c = '\t')
    if rest2 = [] then .ok (key, [])
    else match parse_val rest2 with
    | .err e => .err e
    | .panic => .panic
    | .ok v => .ok (key, rustTrim v)

/-- Constant `2 ^ 64`, the wrap-around modulus of `u64` arithmetic. -/
def U64 : Nat := 2 ^ 64

/-- Constant `2 ^ 32`, the wrap-around modulus of `u32` arithmetic. -/
def U32 : Nat := 2 ^ 32

/-- Digit-fold of a decimal string (the value denoted by a digit list). -/
def natOfDigits (ds : Str) : Nat :=
  ds.foldl (fun a c => a * 10 + (c.toNat - 48)) 0

/-- Rust `str::parse::<uN>` for an unsigned type with exclusive bound
`bound`: optional leading `+`, then one or more ASCII digits, rejecting
overflow. -/
def parse_uint (bound : Nat) (s : Str) : Option Nat :=
  let ds := if s.head? = some '+' then s.tail else s
  if ds = [] ∨ ¬ ds.all Char.isDigit then none
  else if natOfDigits ds < bound then some (natOfDigits ds) else none

/-- Model of `str::parse::<u64>`. -/
def parse_u64 (s : Str) : Option Nat := parse_uint U64 s

/-- Model of `str::parse::<u32>`. -/
def parse_u32 (s : Str) : Option Nat := parse_uint U32 s

/-- Model of `str::split` on `':'` (left to right). -/
def splitColon : Str → List Str
  | [] => [[]]
  | c :: rest =>
    if c = ':' then [] :: splitColon rest
    else match splitColon rest with
      | [] => [[c]]
      | f :: fs => (c :: f) :: fs

/-- The fold of `parser::parse_index` over the colon-separated fields
(right to left) zipped with the per-field multipliers; `u64` arithmetic
wraps modulo `2 ^ 64`. -/
def indexSum (word : Str) : List (Str × Nat) → Nat → RResult String Nat
  | [], n => .ok n
  | (field, mult) :: rest, n =>
    match parse_u64 field with
    | none => .err ("invalid index time: " ++ word.asString)
    | some v => indexSum word rest ((n + mult * v % U64) % U64)

/-- Model of `parser::parse_index`. -/
def parse_index (input : Str) : RResult String Nat :=
  match next_word input with
  | none => .err "missing index number"
  | some (rest, _number) =>
    match consume_space1 rest with
    | none => .err "missing time specifier after index number"
    | some rest2 =>
      match parse_val rest2 with
      | .err e => .err e
      | .panic => .panic
      | .ok word =>
        indexSum word ((splitColon word).reverse.zip [1, 1000, 60000, 60 * 60000]) 0

/-- Model of `cue::Track` (`src/cue.rs`), with `Track::default()` field values. -/
structure Track where
  number : Nat := 0
  title : Option Str := none
  performer : Option Str := none
  songwriter : Option Str := none
  isrc : Option Str := none
  index : Nat := 0
  rems : List (Str × Str) := []
deriving DecidableEq, Repr

/-- Model of `cue::Disc` (`src/cue.rs`), with `Disc::default()` field values. -/
structure Disc where
  rems : List (Str × Str) := []
  catalog : Option Str := none
  performer : Option Str := none
  songwriter : Option Str := none
  title : Option Str := none
  file : Str := []
  tracks : List Track := []
deriving DecidableEq, Repr

/-- Model of `cue::Cue` (`src/cue.rs`), with `Cue::default()` field values. -/
structure Cue where
  rems : List (Str × Str) := []
  title : Option Str := none
  performer : Option Str := none
  songwriter : Option Str := none
  catalog : Option Str := none
  discs : List Disc := []
deriving DecidableEq, Repr

/-- Model of `BTreeMap::insert`: overwrite the value under an existing key, else add
the entry. -/
def mapInsert (m : List (Str × Str)) (k v : Str) : List (Str × Str) :=
  match m with
  | [] => [(k, v)]
  | (k', v') :: rest => if k' = k then (k, v) :: rest else (k', v') :: mapInsert rest k v

/-- The scan loop of `Iterator::next for Parser`, running over the lines
from index `base` on: skip lines with no word, return
`(line-index, field, remainder, new-position)`. -/
def pNextAux : List Str → Nat → Option (Nat × Str × Str × Nat)
  | [], _ => none
  | s :: rest, base =>
    match next_word s with
    | some (r, f) => some (base, f, r, base + 1)
    | none => pNextAux rest (base + 1)

/-- Model of `Iterator::next for Parser`, at position `ln` of `lines`; the fourth
component is the parser's `self.ln` after the call when an item is
produced (when `none` is produced, `self.ln` has advanced to
`lines.length`). -/
def pNext (lines : List Str) (ln : Nat) : Option (Nat × Str × Str × Nat) :=
  pNextAux (lines.drop ln) ln

theorem pNextAux_bounds {L : List Str} {base i : Nat} {f v : Str} {ln1 : Nat}
    (h : pNextAux L base = some (i, f, v, ln1)) :
    base ≤ i ∧ ln1 = i + 1 ∧ i < base + L.length := by
  induction L generalizing base with
  | nil => simp [pNextAux] at h
  | cons s rest ih =>
    rw [pNextAux] at h
    cases hw : next_word s with
    | some p =>
      rw [hw] at h
      obtain ⟨p1, p2⟩ := p
      simp at h
      obtain ⟨h1, _, _, h4⟩ := h
      subst h1; subst h4
      exact ⟨Nat.le_refl _, rfl, by simp only [List.length_cons]; omega⟩
    | none =>
      rw [hw] at h
      have := ih h
      simp only [List.length_cons]; omega

theorem pNext_bounds {lines : List Str} {ln i : Nat} {f v : Str} {ln1 : Nat}
    (h : pNext lines ln = some (i, f, v, ln1)) :
    ln ≤ i ∧ ln1 = i + 1 ∧ i < lines.length := by
  have hb := pNextAux_bounds h
  have hd : (lines.drop ln).length = lines.length - ln := List.length_drop ..
  rw [hd] at hb
  omega

/-- How one of the nested field loops exits: `brk` = pushback and `break`
out of the loop, `file` = pushback and return from `parse_disc`, `eof` =
the iterator was exhausted. -/
inductive LoopExit where
  | brk
  | file
  | eof
deriving DecidableEq, Repr

/-- The global-declaration loop of `Parser::parse`: returns the
accumulated `Cue` and the parser position (the `FILE` line after the
pushback, or `lines.length` on exhaustion). -/
def globalLoop (lines : List Str) (cue : Cue) (ln : Nat) : RResult PError (Cue × Nat) :=
  match h : pNext lines ln with
  | none => .ok (cue, lines.length)
  | some (i, field, val, ln1) =>
    let f := lowercase field
    if f = "rem".toList then
      match parse_rem val with
      | .err e => .err ⟨i, e⟩
      | .panic => .panic
      | .ok (k, v) => globalLoop lines { cue with rems := mapInsert cue.rems k v } ln1
    else if f = "title".toList then
      match parse_val val with
      | .err e => .err ⟨i, e⟩
      | .panic => .panic
      | .ok v => globalLoop lines { cue with title := some v } ln1
    else if f = "performer".toList then
      match parse_val val with
      | .err e => .err ⟨i, e⟩
      | .panic => .panic
      | .ok v => globalLoop lines { cue with performer := some v } ln1
    else if f = "catalog".toList then
      match parse_val val with
      | .err e => .err ⟨i, e⟩
      | .panic => .panic
      | .ok v => globalLoop lines { cue with catalog := some v } ln1
    else if f = "songwriter".toList then
      match parse_val val with
      | .err e => .err ⟨i, e⟩
      | .panic => .panic
      | .ok v => globalLoop lines { cue with songwriter := some v } ln1
    else if f = "file".toList then
      .ok (cue, i)
    else if f = "track".toList then
      .err ⟨i, "`TRACK` declared before any `FILE`"⟩
    else
      .err ⟨i, "unknown field for a disc: " ++ field.asString⟩
termination_by lines.length - ln
decreasing_by
  all_goals
    have := pNext_bounds h
    omega

/-- The disc-field loop of `Parser::parse_disc` (everything between the
`FILE` line and the first `TRACK`/next `FILE`/end of input). -/
def discFields (lines : List Str) (disc : Disc) (ln : Nat) :
    RResult PError (Disc × Nat × LoopExit) :=
  match h : pNext lines ln with
  | none => .ok (disc, lines.length, .eof)
  | some (i, field, val, ln1) =>
    let f := lowercase field
    if f = "track".toList then
      .ok (disc, i, .brk)
    else if f = "rem".toList then
      match parse_rem val with
      | .err e => .err ⟨i, e⟩
      | .panic => .panic
      | .ok (k, v) => discFields lines { disc with rems := mapInsert disc.rems k v } ln1
    else if f = "title".toList then
      match parse_val val with
      | .err e => .err ⟨i, e⟩
      | .panic => .panic
      | .ok v => discFields lines { disc with title := some v } ln1
    else if f = "performer".toList then
      match parse_val val with
      | .err e => .err ⟨i, e⟩
      | .panic => .panic
      | .ok v => discFields lines { disc with performer := some v } ln1
    else if f = "songwriter".toList then
      match parse_val val with
      | .err e => .err ⟨i, e⟩
      | .panic => .panic
      | .ok v => discFields lines { disc with songwriter := some v } ln1
    else if f = "catalog".toList then
      match parse_val val with
      | .err e => .err ⟨i, e⟩
      | .panic => .panic
      | .ok v => discFields lines { disc with catalog := some v } ln1
    else if f = "file".toList then
      .ok (disc, i, .file)
    else
      .err ⟨i, "unknown field for disc: " ++ field.asString⟩
termination_by lines.length - ln
decreasing_by
  all_goals
    have := pNext_bounds h
    omega

/-- The track-field loop of `Parser::parse_disc` (the `while let` loop
over the fields of one track); `track_ln` is the line of the enclosing
`TRACK` declaration. In the source's `FILE` branch the missing-`INDEX`
check happens inside the loop, so it happens here; the corresponding
check for the `brk`/`eof` exits lives in the caller, as in the source. -/
def trackFields (lines : List Str) (track_ln : Nat) (track : Track) (have_index : Bool)
    (ln : Nat) : RResult PError (Track × Bool × Nat × LoopExit) :=
  match h : pNext lines ln with
  | none => .ok (track, have_index, lines.length, .eof)
  | some (i, field, val, ln1) =>
    let f := lowercase field
    if f = "track".toList then
      .ok (track, have_index, i, .brk)
    else if f = "file".toList then
      if !have_index then .err ⟨track_ln, "track is missing a `INDEX` declaration"⟩
      else .ok (track, have_index, i, .file)
    else if f = "index".toList then
      match parse_index val with
      | .err e => .err ⟨i, e⟩
      | .panic => .panic
      | .ok idx => trackFields lines track_ln { track with index := max track.index idx } true ln1
    else if f = "title".toList then
      match parse_val val with
      | .err e => .err ⟨i, e⟩
      | .panic => .panic
      | .ok v => trackFields lines track_ln { track with title := some v } have_index ln1
    else if f = "performer".toList then
      match parse_val val with
      | .err e => .err ⟨i, e⟩
      | .panic => .panic
      | .ok v => trackFields lines track_ln { track with performer := some v } have_index ln1
    else if f = "songwriter".toList then
      match parse_val val with
      | .err e => .err ⟨i, e⟩
      | .panic => .panic
      | .ok v => trackFields lines track_ln { track with songwriter := some v } have_index ln1
    else if f = "isrc".toList then
      match parse_val val with
      | .err e => .err ⟨i, e⟩
      | .panic => .panic
      | .ok v => trackFields lines track_ln { track with isrc := some v } have_index ln1
    else if f = "flags".toList then
      trackFields lines track_ln track have_index ln1
    else if f = "rem".toList then
      match parse_rem val with
      | .err e => .err ⟨i, e⟩
      | .panic => .panic
      | .ok (k, v) => trackFields lines track_ln { track with rems := mapInsert track.rems k v } have_index ln1
    else
      .err ⟨i, "unknown field for a track: " ++ field.asString⟩
termination_by lines.length - ln
decreasing_by
  all_goals
    have := pNext_bounds h
    omega

/-- Position monotonicity of the track-field loop, needed for the
termination of the enclosing track loop: on success the final position is
at or after the start, or the iterator was exhausted. -/
theorem trackFields_mono {lines : List Str} {tln : Nat} :
    ∀ (md : Nat) {tr : Track} {hi : Bool} {ln : Nat} {tr2 : Track} {hi2 : Bool}
      {ln2 : Nat} {ex : LoopExit}, lines.length - ln ≤ md →
      trackFields lines tln tr hi ln = .ok (tr2, hi2, ln2, ex) →
      ln ≤ ln2 ∨ ln2 = lines.length := by
  intro md
  induction md with
  | zero =>
    intro tr hi ln tr2 hi2 ln2 ex hmd h
    rw [trackFields] at h
    split at h
    · simp at h
      right; omega
    · rename_i i field val ln1 hpn
      have hb := pNext_bounds hpn
      exfalso; omega
  | succ md ih =>
    intro tr hi ln tr2 hi2 ln2 ex hmd h
    rw [trackFields] at h
    split at h
    · simp at h
      right; omega
    · rename_i i field val ln1 hpn
      have hb := pNext_bounds hpn
      simp only at h
      repeat' split at h
      all_goals try simp at h
      all_goals try (have hih := ih (by omega) h; omega)
      all_goals omega

/-- Position monotonicity of the disc-field loop (same shape as
`trackFields_mono`). -/
theorem discFields_mono {lines : List Str} :
    ∀ (md : Nat) {d : Disc} {ln : Nat} {d2 : Disc} {ln2 : Nat} {ex : LoopExit},
      lines.length - ln ≤ md →
      discFields lines d ln = .ok (d2, ln2, ex) →
      ln ≤ ln2 ∨ ln2 = lines.length := by
  intro md
  induction md with
  | zero =>
    intro d ln d2 ln2 ex hmd h
    rw [discFields] at h
    split at h
    · simp at h
      right; omega
    · rename_i i field val ln1 hpn
      have hb := pNext_bounds hpn
      exfalso; omega
  | succ md ih =>
    intro d ln d2 ln2 ex hmd h
    rw [discFields] at h
    split at h
    · simp at h
      right; omega
    · rename_i i field val ln1 hpn
      have hb := pNext_bounds hpn
      simp only at h
      repeat' split at h
      all_goals try simp at h
      all_goals try (have hih := ih (by omega) h; omega)
      all_goals omega

/-- The track loop of `Parser::parse_disc` (the outer `while let` over
`TRACK` declarations); each iteration reads a `TRACK` line, parses the
track number, runs the field loop, performs the missing-`INDEX` check for
the `brk`/`eof` exits and pushes the finished track. -/
def trackLoop (lines : List Str) (disc : Disc) (ln : Nat) : RResult PError (Disc × Nat) :=
  match h : pNext lines ln with
  | none => .ok (disc, lines.length)
  | some (i, field, val, ln1) =>
    match parse_str val with
    | .err e => .err ⟨i, e⟩
    | .panic => .panic
    | .ok (_kind, no) =>
      match parse_u32 no with
      | none => .err ⟨i, "invalid track number"⟩
      | some n =>
        match h2 : trackFields lines i { number := n } false ln1 with
        | .err e => .err e
        | .panic => .panic
        | .ok (track, have_index, ln2, ex) =>
          match ex with
          | .file => .ok ({ disc with tracks := disc.tracks ++ [track] }, ln2)
          | .brk =>
            if !have_index then .err ⟨i, "track is missing a `INDEX` declaration"⟩
            else trackLoop lines { disc with tracks := disc.tracks ++ [track] } ln2
          | .eof =>
            if !have_index then .err ⟨i, "track is missing a `INDEX` declaration"⟩
            else trackLoop lines { disc with tracks := disc.tracks ++ [track] } ln2
termination_by lines.length - ln
decreasing_by
  all_goals
    have hb := pNext_bounds h
    have hm := trackFields_mono (lines.length - ln1) (Nat.le_refl _) h2
    rcases hm with hm | hm <;> omega

/-- Position monotonicity of the track loop. -/
theorem trackLoop_mono {lines : List Str} :
    ∀ (md : Nat) {d : Disc} {ln : Nat} {d2 : Disc} {ln2 : Nat},
      lines.length - ln ≤ md →
      trackLoop lines d ln = .ok (d2, ln2) →
      ln ≤ ln2 ∨ ln2 = lines.length := by
  intro md
  induction md with
  | zero =>
    intro d ln d2 ln2 hmd h
    rw [trackLoop] at h
    split at h
    · simp at h
      right; omega
    · rename_i i field val ln1 hpn
      have hb := pNext_bounds hpn
      exfalso; omega
  | succ md ih =>
    intro d ln d2 ln2 hmd h
    rw [trackLoop] at h
    split at h
    · simp at h
      right; omega
    · rename_i i field val ln1 hpn
      have hb := pNext_bounds hpn
      try simp only at h
      repeat' split at h
      all_goals try simp at h
      all_goals try
        (rename_i n track have_index ln3 ex h2 hhi
         have hm := trackFields_mono (lines.length - ln1) (Nat.le_refl _) h2
         have := ih (by rcases hm with hm | hm <;> omega) h
         rcases hm with hm | hm <;> omega)
      all_goals
        (rename_i n track have_index ln3 ex h2
         have hm := trackFields_mono (lines.length - ln1) (Nat.le_refl _) h2
         rcases hm with hm | hm <;> omega)

/-- Model of `Parser::parse_disc`: read the `FILE` line (note: the error of parsing
its value is attributed to `self.ln`, which at that point is the line
index one past the `FILE` line), run the disc-field loop, then either
return (on a nested `FILE` or exhaustion) or run the track loop. The
`self.next().unwrap()` panics if the remaining lines are all blank, which
its callers never allow; the `debug_assert_eq!` is a release no-op. -/
def parse_disc (lines : List Str) (ln : Nat) : RResult PError (Disc × Nat) :=
  match pNext lines ln with
  | none => .panic
  | some (_i, _field, rest, ln1) =>
    match parse_str rest with
    | .err e => .err ⟨ln1, e⟩
    | .panic => .panic
    | .ok (_kind, file) =>
      match discFields lines { file := file } ln1 with
      | .err e => .err e
      | .panic => .panic
      | .ok (disc, ln2, ex) =>
        match ex with
        | .file => .ok (disc, ln2)
        | .brk =>
          if lines.length ≤ ln2 then .ok (disc, ln2)
          else trackLoop lines disc ln2
        | .eof =>
          if lines.length ≤ ln2 then .ok (disc, ln2)
          else trackLoop lines disc ln2

/-- Each successful `parse_disc` strictly advances the parser position
(it consumes at least the `FILE` line); this makes the disc loop of
`Parser::parse` terminate. -/
theorem parse_disc_lt {lines : List Str} {ln : Nat} {d : Disc} {ln' : Nat}
    (h : parse_disc lines ln = .ok (d, ln')) : ln < ln' := by
  rw [parse_disc] at h
  cases hpn : pNext lines ln with
  | none => simp only [hpn] at h; simp at h
  | some q =>
    obtain ⟨i, field, rest, ln1⟩ := q
    simp only [hpn] at h
    have hb := pNext_bounds hpn
    cases hps : parse_str rest with
    | err e => simp only [hps] at h; simp at h
    | panic => simp only [hps] at h; simp at h
    | ok p =>
      obtain ⟨k, file⟩ := p
      simp only [hps] at h
      cases hdf : discFields lines { file := file } ln1 with
      | err e => simp only [hdf] at h; simp at h
      | panic => simp only [hdf] at h; simp at h
      | ok t =>
        obtain ⟨disc, ln2, ex⟩ := t
        simp only [hdf] at h
        have hm := discFields_mono (lines.length - ln1) (Nat.le_refl _) hdf
        cases ex with
        | file =>
          simp at h
          rcases hm with hm | hm <;> omega
        | brk =>
          simp only at h
          split at h
          · simp at h
            rcases hm with hm | hm <;> omega
          · have ht := trackLoop_mono (lines.length - ln2) (Nat.le_refl _) h
            rcases hm with hm | hm <;> rcases ht with ht | ht <;> omega
        | eof =>
          simp only at h
          split at h
          · simp at h
            rcases hm with hm | hm <;> omega
          · have ht := trackLoop_mono (lines.length - ln2) (Nat.le_refl _) h
            rcases hm with hm | hm <;> rcases ht with ht | ht <;> omega

/-- The disc loop of `Parser::parse`
(`while !self.is_exhausted() { cue.discs.push(self.parse_disc()?) }`). -/
def discLoop (lines : List Str) (cue : Cue) (ln : Nat) : RResult PError Cue :=
  if h0 : lines.length ≤ ln then .ok cue
  else
    match h : parse_disc lines ln with
    | .err e => .err e
    | .panic => .panic
    | .ok (disc, ln') => discLoop lines { cue with discs := cue.discs ++ [disc] } ln'
termination_by lines.length - ln
decreasing_by
  have := parse_disc_lt h
  omega

/-- Model of `Parser::parse`: the global loop, the missing-`FILE` check, then the
disc loop. -/
def parserParse (lines : List Str) : RResult PError Cue :=
  match globalLoop lines {} 0 with
  | .err e => .err e
  | .panic => .panic
  | .ok (cue, ln) =>
    if lines.length ≤ ln then .err ⟨0, "cue sheet is missing a `FILE` declaration"⟩
    else discLoop lines cue ln

/-- Helper for `str::lines`: split after each `'\n'`, stripping the
terminator (`"\n"` or `"\r\n"`); `cur` is the current line accumulated in
reverse. -/
def rustLinesAux : Str → Str → List Str
  | cur, [] => [cur.reverse]
  | cur, '\n' :: rest =>
    (match cur with
     | '\r' :: cur2 => cur2.reverse
     | _ => cur.reverse) :: rustLinesAux [] rest
  | cur, c :: rest => rustLinesAux (c :: cur) rest

/-- Rust `str::lines`: a final line terminator produces no extra empty
line, and the empty string has no lines. -/
def rustLines (s : Str) : List Str :=
  if s = [] then []
  else if s.getLast? = some '\n' then (rustLinesAux [] s).dropLast
  else rustLinesAux [] s

/-- Model of `cue::parse` (`src/cue.rs`): split the input into lines, run the
parser, and on error format `"line <N+1>: <msg>\n> <line>"`. The source
indexes `lines[e.ln]` when formatting; when `e.ln` is out of bounds this
is a panic. -/
def cueParse (s : Str) : RResult String Cue :=
  let lines := rustLines s
  match parserParse lines with
  | .ok c => .ok c
  | .panic => .panic
  | .err e =>
    match lines[e.ln]? with
    | none => .panic
    | some l =>
      .err ("line " ++ toString (e.ln + 1) ++ ": " ++ e.msg ++ "\n> " ++ l.asString)

/-! Specification-side definitions used to state the claims. -/

/-- Letters and digits: the character shapes used to state the `INDEX`
specifier properties (no whitespace, no colon, no quote, no sign). -/
def plainChar (c : Char) : Bool :=
  (48 ≤ c.toNat && c.toNat ≤ 57) || (65 ≤ c.toNat && c.toNat ≤ 90) || (97 ≤ c.toNat && c.toNat ≤ 122)

/-- Join fields with `':'`, to build `INDEX` time specifiers in the
statements about `parse_index`. -/
def joinColon : List Str → Str
  | [] => []
  | [f] => f
  | f :: fs => f ++ ':' :: joinColon fs

/-- The claimed weighted sum for an `INDEX` time specifier: fields right
to left times 1, 1000, 60000, 3600000 ms. -/
def weightedSum (fields : List Str) : Nat :=
  ((fields.reverse.zip [1, 1000, 60000, 60 * 60000]).map
    (fun p => p.2 * natOfDigits p.1)).sum

/-- The `INDEX` time values seen by the track-field loop from position
`ln` until the loop closes the track (or hits an error/unknown field):
"the INDEX time values seen for that track". -/
def collectIdx (lines : List Str) (ln : Nat) : List Nat :=
  match h : pNext lines ln with
  | none => []
  | some (i, field, val, ln1) =>
    let f := lowercase field
    if f = "track".toList then []
    else if f = "file".toList then []
    else if f = "index".toList then
      match parse_index val with
      | .ok idx => idx :: collectIdx lines ln1
      | .err _ => []
      | .panic => []
    else if f = "title".toList ∨ f = "performer".toList ∨ f = "songwriter".toList
        ∨ f = "isrc".toList ∨ f = "flags".toList ∨ f = "rem".toList then
      collectIdx lines ln1
    else []
termination_by lines.length - ln
decreasing_by
  all_goals (have hpb := pNext_bounds h; omega)

/-! Helper lemmas and the claim theorems. -/

theorem digit_toNat {c : Char} (h : c.isDigit = true) : 48 ≤ c.toNat ∧ c.toNat ≤ 57 := by
  simp [Char.isDigit] at h
  exact ⟨h.1, h.2⟩

theorem digit_not_rustWs {c : Char} (h : c.isDigit = true) : rustWs c = false := by
  have hb := digit_toNat h
  simp [rustWs]
  omega

theorem digit_ne {c : Char} (h : c.isDigit = true) :
    c ≠ ':' ∧ c ≠ '"' ∧ c ≠ '+' ∧ c ≠ ' ' ∧ c ≠ '\t' := by
  have hb := digit_toNat h
  refine ⟨?_, ?_, ?_, ?_, ?_⟩ <;>
    (rintro rfl; revert hb; decide)

theorem digit_not_asciiWs {c : Char} (h : c.isDigit = true) : isAsciiWs c = false := by
  have hb := digit_toNat h
  have h1 : c ≠ ' ' := by rintro rfl; revert hb; decide
  have h2 : c ≠ '\t' := by rintro rfl; revert hb; decide
  have h3 : c ≠ '\n' := by rintro rfl; revert hb; decide
  have h4 : c ≠ '\x0C' := by rintro rfl; revert hb; decide
  have h5 : c ≠ '\r' := by rintro rfl; revert hb; decide
  simp [isAsciiWs, h1, h2, h3, h4, h5]

theorem plain_of_digit {c : Char} (h : c.isDigit = true) : plainChar c = true := by
  have hb := digit_toNat h
  simp [plainChar]
  omega

theorem plain_toNat {c : Char} (h : plainChar c = true) :
    48 ≤ c.toNat ∧ c.toNat ≤ 122 := by
  simp [plainChar] at h
  rcases h with (h | h) | h <;> omega

theorem plain_not_rustWs {c : Char} (h : plainChar c = true) : rustWs c = false := by
  have hb := plain_toNat h
  simp [rustWs]
  omega

theorem plain_ne {c : Char} (h : plainChar c = true) :
    c ≠ ':' ∧ c ≠ '"' ∧ c ≠ ' ' ∧ c ≠ '\t' := by
  simp [plainChar] at h
  refine ⟨?_, ?_, ?_, ?_⟩ <;> (rintro rfl; revert h; decide)

theorem plain_not_asciiWs {c : Char} (h : plainChar c = true) : isAsciiWs c = false := by
  simp [plainChar] at h
  have h1 : c ≠ ' ' := by rintro rfl; revert h; decide
  have h2 : c ≠ '\t' := by rintro rfl; revert h; decide
  have h3 : c ≠ '\n' := by rintro rfl; revert h; decide
  have h4 : c ≠ '\x0C' := by rintro rfl; revert h; decide
  have h5 : c ≠ '\r' := by rintro rfl; revert h; decide
  simp [isAsciiWs, h1, h2, h3, h4, h5]

theorem joinColon_mem : ∀ {fields : List Str} {c : Char}, c ∈ joinColon fields →
    c = ':' ∨ ∃ f ∈ fields, c ∈ f := by
  intro fields
  induction fields with
  | nil => intro c hc; simp [joinColon] at hc
  | cons f fs ih =>
    intro c hc
    cases fs with
    | nil =>
      simp [joinColon] at hc
      exact Or.inr ⟨f, by simp, hc⟩
    | cons g gs =>
      simp only [joinColon, List.mem_append, List.mem_cons] at hc
      rcases hc with hc | hc | hc
      · exact Or.inr ⟨f, by simp, hc⟩
      · exact Or.inl hc
      · rcases ih hc with h' | ⟨f', hf', hc'⟩
        · exact Or.inl h'
        · exact Or.inr ⟨f', by simp [hf'], hc'⟩

theorem dropWhile_all_false {p : Char → Bool} :
    ∀ {l : Str}, (∀ c ∈ l, p c = false) → l.dropWhile p = l := by
  intro l h
  cases l with
  | nil => rfl
  | cons c r =>
    have := h c (by simp)
    simp [List.dropWhile, this]

theorem rustTrim_id {w : Str} (hh : ∀ c ∈ w, rustWs c = false) : rustTrim w = w := by
  rw [rustTrim, rustTrimStart, rustTrimEnd]
  rw [dropWhile_all_false hh]
  rw [dropWhile_all_false (by intro c hc; exact hh c (List.mem_reverse.mp hc))]
  exact List.reverse_reverse w

theorem splitColon_no_colon : ∀ {f : Str}, (∀ c ∈ f, c ≠ ':') → splitColon f = [f] := by
  intro f
  induction f with
  | nil => intro _; rfl
  | cons c r ih =>
    intro h
    have hc : c ≠ ':' := h c (by simp)
    have hr := ih (fun d hd => h d (by simp [hd]))
    simp only [splitColon, if_neg hc, hr]

theorem splitColon_append {s : Str} : ∀ {f : Str}, (∀ c ∈ f, c ≠ ':') →
    splitColon (f ++ ':' :: s) = f :: splitColon s := by
  intro f
  induction f with
  | nil => intro _; simp [splitColon]
  | cons c r ih =>
    intro h
    have hc : c ≠ ':' := h c (by simp)
    have hr := ih (fun d hd => h d (by simp [hd]))
    simp only [List.cons_append, splitColon, if_neg hc, List.append_eq, hr]

theorem splitColon_joinColon : ∀ {fields : List Str}, fields ≠ [] →
    (∀ f ∈ fields, ∀ c ∈ f, c ≠ ':') → splitColon (joinColon fields) = fields := by
  intro fields
  induction fields with
  | nil => intro h _; exact absurd rfl h
  | cons f fs ih =>
    intro _ h
    cases fs with
    | nil => exact splitColon_no_colon (h f (by simp))
    | cons g gs =>
      simp only [joinColon]
      rw [splitColon_append (h f (by simp))]
      rw [ih (by simp) (fun f2 hf2 => h f2 (by simp [hf2]))]

theorem parse_u64_digits {f : Str} (h1 : f ≠ []) (h2 : ∀ c ∈ f, c.isDigit = true)
    (h3 : natOfDigits f < U64) : parse_u64 f = some (natOfDigits f) := by
  cases f with
  | nil => exact absurd rfl h1
  | cons c r =>
    have hc : c ≠ '+' := (digit_ne (h2 c (by simp))).2.2.1
    have hall : (c :: r).all Char.isDigit = true := List.all_eq_true.mpr h2
    have hhead : ((c :: r) : Str).head? ≠ some '+' := by simp [hc]
    simp only [parse_u64, parse_uint, if_neg hhead]
    rw [if_neg (by simp [hall]), if_pos h3]

theorem indexSum_ok (word : Str) : ∀ (fas : List (Str × Nat)) (n : Nat), n < U64 →
    (∀ p ∈ fas, parse_u64 p.1 = some (natOfDigits p.1)) →
    indexSum word fas n =
      .ok ((n + (fas.map (fun p => p.2 * natOfDigits p.1)).sum) % U64) := by
  intro fas
  induction fas with
  | nil =>
    intro n hn _
    simp [indexSum, Nat.mod_eq_of_lt hn]
  | cons p rest ih =>
    intro n hn hall
    obtain ⟨f, m⟩ := p
    have hf := hall (f, m) (by simp)
    simp only [indexSum, hf]
    have hUpos : 0 < U64 := by rw [U64]; positivity
    rw [ih _ (Nat.mod_lt _ hUpos) (fun q hq => hall q (by simp [hq]))]
    congr 1
    rw [Nat.mod_add_mod]
    have h1 : (m * natOfDigits f) % U64 ≡ m * natOfDigits f [MOD U64] := Nat.mod_modEq _ _
    have h2 := ((Nat.ModEq.refl n).add h1).add
      (Nat.ModEq.refl ((rest.map (fun p => p.2 * natOfDigits p.1)).sum))
    have h3 : n + (m * natOfDigits f + (rest.map (fun p => p.2 * natOfDigits p.1)).sum)
        = n + m * natOfDigits f + (rest.map (fun p => p.2 * natOfDigits p.1)).sum :=
      (Nat.add_assoc _ _ _).symm
    simp only [List.map_cons, List.sum_cons, h3]
    exact h2

theorem indexSum_err (word : Str) : ∀ (fas : List (Str × Nat)) (n : Nat),
    (∃ p ∈ fas, parse_u64 p.1 = none) →
    indexSum word fas n = .err ("invalid index time: " ++ word.asString) := by
  intro fas
  induction fas with
  | nil => intro n h; simp at h
  | cons p rest ih =>
    intro n h
    obtain ⟨f, m⟩ := p
    cases hf : parse_u64 f with
    | none => simp only [indexSum, hf]
    | some v =>
      simp only [indexSum, hf]
      obtain ⟨q, hq, hqn⟩ := h
      rcases List.mem_cons.mp hq with rfl | hq2
      · rw [hf] at hqn; cases hqn
      · exact ih _ ⟨q, hq2, hqn⟩

theorem joinColon_head (c0 : Char) (f0 : Str) (fs : List Str) :
    ∃ t, joinColon ((c0 :: f0) :: fs) = c0 :: t := by
  cases fs with
  | nil => exact ⟨f0, rfl⟩
  | cons g gs => exact ⟨f0 ++ ':' :: joinColon (g :: gs), rfl⟩

theorem next_word_01 (w : Str) :
    next_word ('0' :: '1' :: ' ' :: w) = some (' ' :: w, ['0', '1']) := by
  simp [next_word, isAsciiWs, List.dropWhile_cons, List.takeWhile_cons]

/-- For an `INDEX` remainder built as `01 <specifier>` from non-empty
alphanumeric fields, `parse_index` reaches the multiplier fold with the
specifier as the word and the fields, right to left, zipped against the
four multipliers. -/
theorem parse_index_spec {fields : List Str} (hne : fields ≠ [])
    (hplain : ∀ f ∈ fields, f ≠ [] ∧ ∀ c ∈ f, plainChar c = true) :
    parse_index ('0' :: '1' :: ' ' :: joinColon fields) =
      indexSum (joinColon fields) (fields.reverse.zip [1, 1000, 60000, 60 * 60000]) 0 := by
  have hw : ∀ c ∈ joinColon fields, c = ':' ∨ plainChar c = true := by
    intro c hc
    rcases joinColon_mem hc with h | ⟨f, hf, hcf⟩
    · exact Or.inl h
    · exact Or.inr ((hplain f hf).2 c hcf)
  have hwns : ∀ c ∈ joinColon fields, rustWs c = false := by
    intro c hc
    rcases hw c hc with rfl | h
    · decide
    · exact plain_not_rustWs h
  obtain ⟨f0, fs, rfl⟩ : ∃ f0 fs, fields = f0 :: fs := by
    cases fields with
    | nil => exact absurd rfl hne
    | cons f0 fs => exact ⟨f0, fs, rfl⟩
  obtain ⟨c0, f1, rfl⟩ : ∃ c0 f1, f0 = c0 :: f1 := by
    cases f0 with
    | nil => exact absurd rfl (hplain [] (by simp)).1
    | cons c0 f1 => exact ⟨c0, f1, rfl⟩
  have hp0 : plainChar c0 = true := (hplain (c0 :: f1) (by simp)).2 c0 (by simp)
  have hpne := plain_ne hp0
  obtain ⟨t, hjoin⟩ := joinColon_head c0 f1 fs
  have hcs : consume_space1 (' ' :: joinColon ((c0 :: f1) :: fs))
      = some (joinColon ((c0 :: f1) :: fs)) := by
    rw [hjoin]
    simp [consume_space1, List.dropWhile_cons, hpne.2.2.1, hpne.2.2.2]
  have htrim : rustTrim (joinColon ((c0 :: f1) :: fs)) = joinColon ((c0 :: f1) :: fs) :=
    rustTrim_id hwns
  have hwne : joinColon ((c0 :: f1) :: fs) ≠ [] := by rw [hjoin]; simp
  have hq : ¬(1 < utf8Len (joinColon ((c0 :: f1) :: fs))
      ∧ (joinColon ((c0 :: f1) :: fs)).head? = some '"'
      ∧ (joinColon ((c0 :: f1) :: fs)).getLast? = some '"') := by
    rintro ⟨-, hh, -⟩
    rw [hjoin] at hh
    simp at hh
    exact hpne.2.1 hh
  have hpv : parse_val (joinColon ((c0 :: f1) :: fs)) = .ok (joinColon ((c0 :: f1) :: fs)) := by
    simp only [parse_val, htrim]
    rw [if_neg hwne, if_neg hq]
  have hnc : ∀ f ∈ (c0 :: f1) :: fs, ∀ c ∈ f, c ≠ ':' := by
    intro f hf c hc
    exact (plain_ne ((hplain f hf).2 c hc)).1
  rw [parse_index]
  simp only [next_word_01, hcs, hpv]
  rw [splitColon_joinColon hne hnc]

/-- A successful run of the track-field loop leaves the track's stored
offset equal to the `max`-fold of all `INDEX` values it saw over the
offset it started from. -/
theorem trackFields_index {lines : List Str} {tln : Nat} :
    ∀ (md : Nat) {tr : Track} {hi : Bool} {ln : Nat} {tr2 : Track} {hi2 : Bool}
      {ln2 : Nat} {ex : LoopExit}, lines.length - ln ≤ md →
      trackFields lines tln tr hi ln = .ok (tr2, hi2, ln2, ex) →
      tr2.index = (collectIdx lines ln).foldl max tr.index := by
  intro md
  induction md with
  | zero =>
    intro tr hi ln tr2 hi2 ln2 ex hmd h
    rw [trackFields] at h
    rw [collectIdx]
    split at h
    · simp at h
      simp [h.1.symm]
    · rename_i i field val ln1 hpn
      have hb := pNext_bounds hpn
      exfalso; omega
  | succ md ih =>
    intro tr hi ln tr2 hi2 ln2 ex hmd h
    rw [trackFields] at h
    rw [collectIdx]
    split at h
    · simp at h
      simp [h.1.symm]
    · rename_i i field val ln1 hpn
      have hb := pNext_bounds hpn
      try simp only at h
      repeat' split at h
      all_goals try simp at h
      all_goals try (obtain ⟨h1, h2, h3, h4⟩ := h; simp [*])
      all_goals
        (have hrec := ih (by omega) h
         simp at hrec
         simp [*])

/-- The track-field loop can only exit through the `FILE` branch when an
`INDEX` has been seen: otherwise that branch raises the missing-`INDEX`
error at the `TRACK` line. -/
theorem trackFields_file_hi {lines : List Str} {tln : Nat} :
    ∀ (md : Nat) {tr : Track} {hi : Bool} {ln : Nat} {tr2 : Track} {hi2 : Bool}
      {ln2 : Nat}, lines.length - ln ≤ md →
      trackFields lines tln tr hi ln = .ok (tr2, hi2, ln2, .file) → hi2 = true := by
  intro md
  induction md with
  | zero =>
    intro tr hi ln tr2 hi2 ln2 hmd h
    rw [trackFields] at h
    split at h
    · simp at h
    · rename_i i field val ln1 hpn
      have hb := pNext_bounds hpn
      exfalso; omega
  | succ md ih =>
    intro tr hi ln tr2 hi2 ln2 hmd h
    rw [trackFields] at h
    split at h
    · simp at h
    · rename_i i field val ln1 hpn
      have hb := pNext_bounds hpn
      try simp only at h
      repeat' split at h
      all_goals try simp at h
      all_goals try (exact ih (by omega) h)
      all_goals simp_all

/-- The track-field loop never changes the track number it was given. -/
theorem trackFields_number {lines : List Str} {tln : Nat} :
    ∀ (md : Nat) {tr : Track} {hi : Bool} {ln : Nat} {tr2 : Track} {hi2 : Bool}
      {ln2 : Nat} {ex : LoopExit}, lines.length - ln ≤ md →
      trackFields lines tln tr hi ln = .ok (tr2, hi2, ln2, ex) →
      tr2.number = tr.number := by
  intro md
  induction md with
  | zero =>
    intro tr hi ln tr2 hi2 ln2 ex hmd h
    rw [trackFields] at h
    split at h
    · simp at h
      simp [h.1.symm]
    · rename_i i field val ln1 hpn
      have hb := pNext_bounds hpn
      exfalso; omega
  | succ md ih =>
    intro tr hi ln tr2 hi2 ln2 ex hmd h
    rw [trackFields] at h
    split at h
    · simp at h
      simp [h.1.symm]
    · rename_i i field val ln1 hpn
      have hb := pNext_bounds hpn
      try simp only at h
      repeat' split at h
      all_goals try simp at h
      all_goals try (have hrec := ih (by omega) h; try simp at hrec; simp [*])
      all_goals simp_all

/-- The disc loop of `Parser::parse` never drops discs: the disc count of
the result is at least the disc count of the accumulator. -/
theorem discLoop_discs {lines : List Str} :
    ∀ (md : Nat) {cue : Cue} {ln : Nat} {c2 : Cue}, lines.length - ln ≤ md →
      discLoop lines cue ln = .ok c2 → cue.discs.length ≤ c2.discs.length := by
  intro md
  induction md with
  | zero =>
    intro cue ln c2 hmd h
    rw [discLoop] at h
    split at h
    · simp at h
      simp [h.symm]
    · rename_i hlt
      split at h
      · simp at h
      · simp at h
      · rename_i d ln2 hpd
        have := parse_disc_lt hpd
        exfalso; omega
  | succ md ih =>
    intro cue ln c2 hmd h
    rw [discLoop] at h
    split at h
    · simp at h
      simp [h.symm]
    · rename_i hlt
      split at h
      · simp at h
      · simp at h
      · rename_i d ln2 hpd
        have hlt2 := parse_disc_lt hpd
        have hrec := ih (by omega) h
        simp at hrec
        omega

/-- C1: the claim states the parse is total on every input — returning a
`Document` or a structured error and never aborting otherwise. The code
violates this: on the empty input, the parser raises the missing-`FILE`
error with line index 0 and `cue::parse` then formats it by indexing
`lines[0]` of the empty line list, which panics; a `FILE` line with no
remainder likewise panics inside `parse_str` (out-of-bounds byte slice
`&input[end + 1..]` on the empty value). -/
theorem c1_parse_panics :
    cueParse [] = .panic ∧ cueParse ("FILE".toList) = .panic := by
  constructor
  · rw [cueParse]
    simp +decide only [show rustLines [] = [] from by decide, parserParse]
    rw [globalLoop]
    simp +decide only [show pNext ([] : List Str) 0 = none from by decide]
  · have hg : globalLoop ["FILE".toList] {} 0 = .ok ({}, 0) := by
      rw [globalLoop]
      simp +decide only [show pNext ["FILE".toList] 0
        = some (0, "FILE".toList, [], 1) from by decide]
    have hpd : parse_disc ["FILE".toList] 0 = .panic := by
      simp +decide only [parse_disc,
        show pNext ["FILE".toList] 0 = some (0, "FILE".toList, [], 1) from by decide,
        show parse_str ([] : Str) = .panic from by decide]
    have hdl : discLoop ["FILE".toList] {} 0 = .panic := by
      rw [discLoop]
      simp +decide only [hpd]
    rw [cueParse]
    simp +decide only [show rustLines ("FILE".toList) = ["FILE".toList] from by decide,
      parserParse, hg, hdl]

/-- Concrete run used for C2: `FILE a` followed by end of input parses
successfully into one disc with no tracks. -/
theorem parserParse_file_a :
    parserParse ["FILE a".toList] = .ok { discs := [{ file := "a".toList }] } := by
  have hg : globalLoop ["FILE a".toList] {} 0 = .ok ({}, 0) := by
    rw [globalLoop]
    simp +decide only [show pNext ["FILE a".toList] 0
      = some (0, "FILE".toList, " a".toList, 1) from by decide]
  have hdf : discFields ["FILE a".toList] { file := "a".toList } 1
      = .ok ({ file := "a".toList }, 1, .eof) := by
    rw [discFields]
    simp +decide only [show pNext ["FILE a".toList] 1 = none from by decide]
  have hpd : parse_disc ["FILE a".toList] 0 = .ok ({ file := "a".toList }, 1) := by
    simp +decide only [parse_disc,
      show pNext ["FILE a".toList] 0 = some (0, "FILE".toList, " a".toList, 1) from by decide,
      show parse_str (" a".toList) = .ok ([], "a".toList) from by decide,
      hdf]
  have hdl2 : discLoop ["FILE a".toList] { discs := [{ file := "a".toList }] } 1
      = .ok { discs := [{ file := "a".toList }] } := by
    rw [discLoop]
    simp +decide only []
  have hdl : discLoop ["FILE a".toList] {} 0 = .ok { discs := [{ file := "a".toList }] } := by
    rw [discLoop]
    simp +decide only [dite_false, dite_true, List.nil_append]
    split
    · rename_i e heq
      rw [hpd] at heq; simp at heq
    · rename_i heq
      rw [hpd] at heq; simp at heq
    · rename_i disc ln2 heq
      rw [hpd] at heq
      simp at heq
      obtain ⟨h1, h2⟩ := heq
      subst h1; subst h2
      exact hdl2
  rw [parserParse]
  simp +decide only [hg, hdl]

/-- C2 counterexample: the claim says a `FILE` followed by end of input
makes the parse fail rather than produce a `Document` with an empty track
collection; in fact `cue::parse "FILE a"` succeeds, with a single `Disc`
whose `tracks` collection is empty. -/
theorem c2_counterexample :
    cueParse ("FILE a".toList) = .ok { discs := [{ file := "a".toList }] } ∧
    ({ file := "a".toList } : Disc).tracks = [] := by
  refine ⟨?_, rfl⟩
  rw [cueParse]
  simp +decide only [show rustLines ("FILE a".toList) = ["FILE a".toList] from by decide,
    parserParse_file_a]

/-- C2 amended: on every successful parse the `Document` holds at least
one `Disc`; but a `Disc` may hold no tracks (rejection of zero-track
documents is left to the caller of `cue::parse`). -/
theorem c2_amended {lines : List Str} {c : Cue}
    (h : parserParse lines = .ok c) : c.discs ≠ [] := by
  rw [parserParse] at h
  cases hg : globalLoop lines {} 0 with
  | err e => simp only [hg] at h; simp at h
  | panic => simp only [hg] at h; simp at h
  | ok p =>
    obtain ⟨cue, ln⟩ := p
    simp only [hg] at h
    split at h
    · simp at h
    · rename_i hlt
      rw [discLoop] at h
      rw [dif_neg hlt] at h
      split at h
      · simp at h
      · simp at h
      · rename_i d ln2 hpd
        have hml := discLoop_discs (lines.length - ln2) (Nat.le_refl _) h
        intro hc
        rw [hc] at hml
        simp at hml

/-- C2 witness: the amended theorem applied to the concrete one-disc
parse of `FILE a`. -/
theorem c2_witness : ({ discs := [{ file := "a".toList }] } : Cue).discs ≠ [] :=
  c2_amended parserParse_file_a

/-- C3: the claim says value errors are always attributed to the line of
the field being processed, in particular that a `FILE`-value error is
attributed to the `FILE` line. The code violates this: `parse_disc`
discards the line index that came with the `FILE` token and uses
`self.ln` — which already points one past the `FILE` line — so the
unterminated-quote error for the `FILE "a` value on line 0 is attributed
to line 1. -/
theorem c3_file_error_attribution :
    parserParse ["FILE \"a".toList, "TRACK 1 AUDIO".toList]
      = .err ⟨1, "unterminated double-quoted string"⟩ := by
  have hg : globalLoop ["FILE \"a".toList, "TRACK 1 AUDIO".toList] {} 0 = .ok ({}, 0) := by
    rw [globalLoop]
    simp +decide only [show pNext ["FILE \"a".toList, "TRACK 1 AUDIO".toList] 0
      = some (0, "FILE".toList, " \"a".toList, 1) from by decide]
  have hpd : parse_disc ["FILE \"a".toList, "TRACK 1 AUDIO".toList] 0
      = .err ⟨1, "unterminated double-quoted string"⟩ := by
    simp +decide only [parse_disc,
      show pNext ["FILE \"a".toList, "TRACK 1 AUDIO".toList] 0
        = some (0, "FILE".toList, " \"a".toList, 1) from by decide,
      show parse_str (" \"a".toList) = .err "unterminated double-quoted string" from by decide]
  have hdl : discLoop ["FILE \"a".toList, "TRACK 1 AUDIO".toList] {} 0
      = .err ⟨1, "unterminated double-quoted string"⟩ := by
    rw [discLoop]
    simp +decide only [dite_false, dite_true]
  rw [parserParse]
  simp +decide only [hg, hdl]

/-- C4 counterexample: the claim says the computed offset equals the
weighted sum for every well-formed 1-to-4-field specifier; with the field
`18446744073709551615` (= `u64::MAX`, which parses) the multiplication
wraps modulo `2 ^ 64`, so the computed offset differs from the sum. -/
theorem c4_counterexample :
    parse_index ("01 18446744073709551615:0".toList) = .ok 18446744073709550616 ∧
    (18446744073709550616 : Nat) ≠ 1000 * 18446744073709551615 + 1 * 0 := by
  constructor
  · decide
  · decide

/-- C4 amended: for every well-formed specifier of 1 to 4 decimal-integer
fields (each parsing as `u64`), the computed offset equals the weighted
sum of the fields, right to left with weights 1, 1000, 60000, 3600000,
reduced modulo `2 ^ 64` (the `u64` accumulation wraps). -/
theorem c4_amended (fields : List Str) (hne : fields ≠ []) (hlen : fields.length ≤ 4)
    (hfield : ∀ f ∈ fields, f ≠ [] ∧ (∀ c ∈ f, c.isDigit = true) ∧ natOfDigits f < U64) :
    parse_index ('0' :: '1' :: ' ' :: joinColon fields) = .ok (weightedSum fields % U64) := by
  have hplain : ∀ f ∈ fields, f ≠ [] ∧ ∀ c ∈ f, plainChar c = true := by
    intro f hf
    exact ⟨(hfield f hf).1, fun c hc => plain_of_digit ((hfield f hf).2.1 c hc)⟩
  rw [parse_index_spec hne hplain]
  rw [indexSum_ok _ _ 0 (by rw [U64]; positivity)]
  · rw [weightedSum]
    rw [Nat.zero_add]
  · intro p hp
    have hmem : p.1 ∈ fields := List.mem_reverse.mp (List.of_mem_zip hp).1
    obtain ⟨h1, h2, h3⟩ := hfield p.1 hmem
    exact parse_u64_digits h1 h2 h3

/-- C4 witness: the two specifier examples of the spec, `00:02:03` giving
2003 ms and `5:250` giving 5250 ms. -/
theorem c4_witness :
    parse_index ("01 00:02:03".toList) = .ok 2003 ∧
    parse_index ("01 5:250".toList) = .ok 5250 :=
  ⟨c4_amended ["00".toList, "02".toList, "03".toList] (by decide) (by decide) (by decide),
   c4_amended ["5".toList, "250".toList] (by decide) (by decide) (by decide)⟩

theorem dropWhile_all_true {p : Char → Bool} :
    ∀ {l : Str}, (∀ c ∈ l, p c = true) → l.dropWhile p = [] := by
  intro l
  induction l with
  | nil => intro _; rfl
  | cons c r ih =>
    intro h
    have hc := h c (by simp)
    simp only [List.dropWhile_cons, hc, if_true]
    exact ih (fun d hd => h d (by simp [hd]))

theorem takeWhile_all_true {p : Char → Bool} :
    ∀ {l : Str}, (∀ c ∈ l, p c = true) → l.takeWhile p = l := by
  intro l
  induction l with
  | nil => intro _; rfl
  | cons c r ih =>
    intro h
    have hc := h c (by simp)
    simp only [List.takeWhile_cons, hc, if_true]
    rw [ih (fun d hd => h d (by simp [hd]))]

/-- C5 counterexample: the claim says a field failing integer parsing
makes the `INDEX` line fail for any number of fields; with five fields the
leftmost field is ignored (the fold zips against only four multipliers),
so `01 x:0:0:0:0` parses successfully even though `x` fails parsing. -/
theorem c5_counterexample :
    parse_index ("01 x:0:0:0:0".toList) = .ok 0 ∧ parse_u64 ("x".toList) = none := by
  constructor
  · decide
  · decide

/-- C5 amended: for specifiers of at most four colon-separated fields, any
field failing `u64` parsing makes the `INDEX` line fail with an error
naming the offending specifier text (fields beyond the fourth from the
right are ignored, so this does not hold for longer specifiers); a missing
specifier after the index number is likewise an error. -/
theorem c5_amended :
    (∀ fields : List Str, fields ≠ [] → fields.length ≤ 4 →
      (∀ f ∈ fields, f ≠ [] ∧ ∀ c ∈ f, plainChar c = true) →
      (∃ f ∈ fields, parse_u64 f = none) →
      parse_index ('0' :: '1' :: ' ' :: joinColon fields)
        = .err ("invalid index time: " ++ (joinColon fields).asString)) ∧
    (∀ w : Str, w ≠ [] → (∀ c ∈ w, isAsciiWs c = false) →
      parse_index w = .err "missing time specifier after index number") := by
  constructor
  · intro fields hne hlen hplain hbad
    rw [parse_index_spec hne hplain]
    apply indexSum_err
    obtain ⟨f, hf, hfn⟩ := hbad
    have hf2 : f ∈ (fields.reverse.zip [1, 1000, 60000, 60 * 60000]).map Prod.fst := by
      rw [List.map_fst_zip]
      · exact List.mem_reverse.mpr hf
      · simp [hlen]
    obtain ⟨p, hp, hp1⟩ := List.mem_map.mp hf2
    exact ⟨p, hp, by rw [hp1]; exact hfn⟩
  · intro w hne hws
    have hnw : next_word w = some ([], w) := by
      rw [next_word]
      have hd : w.dropWhile isAsciiWs = w :=
        dropWhile_all_false (fun c hc => hws c hc)
      have hd2 : w.dropWhile (fun c => !isAsciiWs c) = [] :=
        dropWhile_all_true (fun c hc => by simp [hws c hc])
      have ht : w.takeWhile (fun c => !isAsciiWs c) = w :=
        takeWhile_all_true (fun c hc => by simp [hws c hc])
      simp only [hd, hd2, ht, if_neg hne]
    rw [parse_index]
    simp only [hnw]
    rfl

/-- C5 witness: the spec's own malformed example `a:b` fails with the
message naming the text, via the amended theorem. -/
theorem c5_witness :
    parse_index ("01 a:b".toList) = .err "invalid index time: a:b" :=
  c5_amended.1 ["a".toList, "b".toList] (by decide) (by decide) (by decide) (by decide)

/-- C6 counterexample: under the documented right-to-left weights the
specifier `00:03:00` is 3 × 1000 = 3000 ms, so `INDEX 00 00:00:00`
followed by `INDEX 01 00:03:00` stores 3000 ms — the maximum of {0, 3000}
— not the 180000 ms stated by the claim. -/
theorem c6_counterexample :
    parserParse ["FILE f".toList, "TRACK 1 AUDIO".toList,
        "INDEX 00 00:00:00".toList, "INDEX 01 00:03:00".toList]
      = .ok { discs := [{ file := "f".toList, tracks := [{ number := 1, index := 3000 }] }] } ∧
    (3000 : Nat) ≠ 180000 := by
  refine ⟨?_, by decide⟩
  have hg : globalLoop ["FILE f".toList, "TRACK 1 AUDIO".toList,
      "INDEX 00 00:00:00".toList, "INDEX 01 00:03:00".toList] {} 0 = .ok ({}, 0) := by
    rw [globalLoop]
    simp +decide only [show pNext ["FILE f".toList, "TRACK 1 AUDIO".toList,
      "INDEX 00 00:00:00".toList, "INDEX 01 00:03:00".toList] 0
      = some (0, "FILE".toList, " f".toList, 1) from by decide]
  have hdf : discFields ["FILE f".toList, "TRACK 1 AUDIO".toList,
      "INDEX 00 00:00:00".toList, "INDEX 01 00:03:00".toList] { file := "f".toList } 1
      = .ok ({ file := "f".toList }, 1, .brk) := by
    rw [discFields]
    simp +decide only [show pNext ["FILE f".toList, "TRACK 1 AUDIO".toList,
      "INDEX 00 00:00:00".toList, "INDEX 01 00:03:00".toList] 1
      = some (1, "TRACK".toList, " 1 AUDIO".toList, 2) from by decide]
  have htf3 : trackFields ["FILE f".toList, "TRACK 1 AUDIO".toList,
      "INDEX 00 00:00:00".toList, "INDEX 01 00:03:00".toList] 1
      { number := 1, index := 3000 } true 4
      = .ok ({ number := 1, index := 3000 }, true, 4, .eof) := by
    rw [trackFields]
    simp +decide only [show pNext ["FILE f".toList, "TRACK 1 AUDIO".toList,
      "INDEX 00 00:00:00".toList, "INDEX 01 00:03:00".toList] 4 = none from by decide]
  have htf2 : trackFields ["FILE f".toList, "TRACK 1 AUDIO".toList,
      "INDEX 00 00:00:00".toList, "INDEX 01 00:03:00".toList] 1
      { number := 1 } true 3
      = .ok ({ number := 1, index := 3000 }, true, 4, .eof) := by
    rw [trackFields]
    split
    · rename_i heq
      exact absurd heq (by decide)
    · rename_i i field val ln1 heq
      rw [show pNext ["FILE f".toList, "TRACK 1 AUDIO".toList,
        "INDEX 00 00:00:00".toList, "INDEX 01 00:03:00".toList] 3
        = some (3, "INDEX".toList, " 01 00:03:00".toList, 4) from by decide] at heq
      simp only [Option.some.injEq, Prod.mk.injEq] at heq
      obtain ⟨rfl, rfl, rfl, rfl⟩ := heq
      simp +decide only [show parse_index (" 01 00:03:00".toList) = .ok 3000 from by decide]
      exact htf3
  have htf1 : trackFields ["FILE f".toList, "TRACK 1 AUDIO".toList,
      "INDEX 00 00:00:00".toList, "INDEX 01 00:03:00".toList] 1
      { number := 1 } false 2
      = .ok ({ number := 1, index := 3000 }, true, 4, .eof) := by
    rw [trackFields]
    split
    · rename_i heq
      exact absurd heq (by decide)
    · rename_i i field val ln1 heq
      rw [show pNext ["FILE f".toList, "TRACK 1 AUDIO".toList,
        "INDEX 00 00:00:00".toList, "INDEX 01 00:03:00".toList] 2
        = some (2, "INDEX".toList, " 00 00:00:00".toList, 3) from by decide] at heq
      simp only [Option.some.injEq, Prod.mk.injEq] at heq
      obtain ⟨rfl, rfl, rfl, rfl⟩ := heq
      simp +decide only [show parse_index (" 00 00:00:00".toList) = .ok 0 from by decide]
      exact htf2
  have htl : trackLoop ["FILE f".toList, "TRACK 1 AUDIO".toList,
      "INDEX 00 00:00:00".toList, "INDEX 01 00:03:00".toList] { file := "f".toList } 1
      = .ok ({ file := "f".toList, tracks := [{ number := 1, index := 3000 }] }, 4) := by
    rw [trackLoop]
    split
    · rename_i heq
      exact absurd heq (by decide)
    · rename_i i field val ln1 heq
      rw [show pNext ["FILE f".toList, "TRACK 1 AUDIO".toList,
        "INDEX 00 00:00:00".toList, "INDEX 01 00:03:00".toList] 1
        = some (1, "TRACK".toList, " 1 AUDIO".toList, 2) from by decide] at heq
      simp only [Option.some.injEq, Prod.mk.injEq] at heq
      obtain ⟨rfl, rfl, rfl, rfl⟩ := heq
      simp +decide only [show parse_str (" 1 AUDIO".toList)
          = .ok (" AUDIO".toList, "1".toList) from by decide,
        show parse_u32 ("1".toList) = some 1 from by decide]
      split
      · rename_i e heq2
        rw [htf1] at heq2; simp at heq2
      · rename_i heq2
        rw [htf1] at heq2; simp at heq2
      · rename_i track have_index ln2 ex heq2
        rw [htf1] at heq2
        simp at heq2
        obtain ⟨h1, h2, h3, h4⟩ := heq2
        subst h1; subst h2; subst h3; subst h4
        simp +decide only []
        rw [trackLoop]
        decide
  have hpd : parse_disc ["FILE f".toList, "TRACK 1 AUDIO".toList,
      "INDEX 00 00:00:00".toList, "INDEX 01 00:03:00".toList] 0
      = .ok ({ file := "f".toList, tracks := [{ number := 1, index := 3000 }] }, 4) := by
    simp +decide only [parse_disc,
      show pNext ["FILE f".toList, "TRACK 1 AUDIO".toList,
        "INDEX 00 00:00:00".toList, "INDEX 01 00:03:00".toList] 0
        = some (0, "FILE".toList, " f".toList, 1) from by decide,
      show parse_str (" f".toList) = .ok ([], "f".toList) from by decide,
      hdf, htl]
  have hdl2 : discLoop ["FILE f".toList, "TRACK 1 AUDIO".toList,
      "INDEX 00 00:00:00".toList, "INDEX 01 00:03:00".toList]
      { discs := [{ file := "f".toList, tracks := [{ number := 1, index := 3000 }] }] } 4
      = .ok { discs := [{ file := "f".toList, tracks := [{ number := 1, index := 3000 }] }] } := by
    rw [discLoop]
    simp +decide only []
  have hdl : discLoop ["FILE f".toList, "TRACK 1 AUDIO".toList,
      "INDEX 00 00:00:00".toList, "INDEX 01 00:03:00".toList] {} 0
      = .ok { discs := [{ file := "f".toList, tracks := [{ number := 1, index := 3000 }] }] } := by
    rw [discLoop]
    simp +decide only [dite_false, dite_true, List.nil_append]
    split
    · rename_i e heq
      rw [hpd] at heq; simp at heq
    · rename_i heq
      rw [hpd] at heq; simp at heq
    · rename_i disc ln2 heq
      rw [hpd] at heq
      simp at heq
      obtain ⟨h1, h2⟩ := heq
      subst h1; subst h2
      exact hdl2
  rw [parserParse]
  simp +decide only [hg, hdl]

/-- C6 amended: every track record built by the track loop starts from
`Track { number, ..default }` with offset 0, and on success its stored
offset equals the `max`-fold (over 0) of all the `INDEX` time values seen
for that track — so the maximum of them, never the first-seen value. In
the claim's example the stored value is 3000 ms (= max {0, 3000}), not
180000. -/
theorem c6_amended (lines : List Str) (tln n ln : Nat) (tr : Track) (hi2 : Bool)
    (ln2 : Nat) (ex : LoopExit)
    (h : trackFields lines tln { number := n } false ln = .ok (tr, hi2, ln2, ex)) :
    tr.index = (collectIdx lines ln).foldl max 0 := by
  have h2 := trackFields_index (lines.length - ln) (Nat.le_refl _) h
  simpa using h2

/-- C6 witness: the amended theorem applied to the two `INDEX` lines of
the claim's example, whose stored offset is 3000. -/
theorem c6_witness :
    ({ number := 1, index := 3000 } : Track).index
      = (collectIdx ["INDEX 00 00:00:00".toList, "INDEX 01 00:03:00".toList] 0).foldl max 0 ∧
    ({ number := 1, index := 3000 } : Track).index = 3000 := by
  refine ⟨?_, rfl⟩
  have htfw3 : trackFields ["INDEX 00 00:00:00".toList, "INDEX 01 00:03:00".toList] 0
      { number := 1, index := 3000 } true 2
      = .ok ({ number := 1, index := 3000 }, true, 2, .eof) := by
    rw [trackFields]
    simp +decide only [show pNext ["INDEX 00 00:00:00".toList, "INDEX 01 00:03:00".toList] 2
      = none from by decide]
  have htfw2 : trackFields ["INDEX 00 00:00:00".toList, "INDEX 01 00:03:00".toList] 0
      { number := 1 } true 1
      = .ok ({ number := 1, index := 3000 }, true, 2, .eof) := by
    rw [trackFields]
    split
    · rename_i heq
      exact absurd heq (by decide)
    · rename_i i field val ln1 heq
      rw [show pNext ["INDEX 00 00:00:00".toList, "INDEX 01 00:03:00".toList] 1
        = some (1, "INDEX".toList, " 01 00:03:00".toList, 2) from by decide] at heq
      simp only [Option.some.injEq, Prod.mk.injEq] at heq
      obtain ⟨rfl, rfl, rfl, rfl⟩ := heq
      simp +decide only [show parse_index (" 01 00:03:00".toList) = .ok 3000 from by decide]
      exact htfw3
  have htfw1 : trackFields ["INDEX 00 00:00:00".toList, "INDEX 01 00:03:00".toList] 0
      { number := 1 } false 0
      = .ok ({ number := 1, index := 3000 }, true, 2, .eof) := by
    rw [trackFields]
    split
    · rename_i heq
      exact absurd heq (by decide)
    · rename_i i field val ln1 heq
      rw [show pNext ["INDEX 00 00:00:00".toList, "INDEX 01 00:03:00".toList] 0
        = some (0, "INDEX".toList, " 00 00:00:00".toList, 1) from by decide] at heq
      simp only [Option.some.injEq, Prod.mk.injEq] at heq
      obtain ⟨rfl, rfl, rfl, rfl⟩ := heq
      simp +decide only [show parse_index (" 00 00:00:00".toList) = .ok 0 from by decide]
      exact htfw2
  exact c6_amended _ 0 1 0 _ true 2 .eof htfw1

/-- C7: a `TRACK` closed without any `INDEX` fails with the error at the
`TRACK` declaration's line. First conjunct: when the field loop of a track
starting at line `i` completes (by a following `TRACK` or end of input)
with `have_index` still false, the track loop fails at line `i`. Second
conjunct: when the field loop meets a `FILE` field with `have_index`
still false, it fails at the `TRACK` line `track_ln` it was given. A
`FILE` closure can never return successfully without an `INDEX`
(`trackFields_file_hi`), so the three closure paths are covered. -/
theorem c7_missing_index :
    (∀ (lines : List Str) (disc : Disc) (ln i : Nat) (field val : Str) (ln1 : Nat)
        (rest no : Str) (n : Nat) (tr : Track) (ln2 : Nat) (ex : LoopExit),
      pNext lines ln = some (i, field, val, ln1) →
      parse_str val = .ok (rest, no) →
      parse_u32 no = some n →
      trackFields lines i { number := n } false ln1 = .ok (tr, false, ln2, ex) →
      trackLoop lines disc ln = .err ⟨i, "track is missing a `INDEX` declaration"⟩) ∧
    (∀ (lines : List Str) (tln : Nat) (tr : Track) (ln i : Nat) (field val : Str) (ln1 : Nat),
      pNext lines ln = some (i, field, val, ln1) →
      lowercase field = "file".toList →
      trackFields lines tln tr false ln
        = .err ⟨tln, "track is missing a `INDEX` declaration"⟩) := by
  constructor
  · intro lines disc ln i field val ln1 rest no n tr ln2 ex hpn hps hn htf
    rw [trackLoop]
    split
    · rename_i heq
      rw [hpn] at heq
      exact Option.noConfusion heq
    · rename_i i2 field2 val2 ln12 heq
      rw [hpn] at heq
      simp only [Option.some.injEq, Prod.mk.injEq] at heq
      obtain ⟨rfl, rfl, rfl, rfl⟩ := heq
      simp only [hps, hn]
      split
      · rename_i e heq2
        rw [htf] at heq2
        simp at heq2
      · rename_i heq2
        rw [htf] at heq2
        simp at heq2
      · rename_i track have_index ln22 ex2 heq2
        rw [htf] at heq2
        simp only [RResult.ok.injEq, Prod.mk.injEq] at heq2
        obtain ⟨rfl, h2, rfl, rfl⟩ := heq2
        subst h2
        cases ex with
        | file =>
          have hcontra := trackFields_file_hi (lines.length - ln1) (Nat.le_refl _) htf
          simp at hcontra
        | brk => simp +decide only [if_true]
        | eof => simp +decide only [if_true]
  · intro lines tln tr ln i field val ln1 hpn hf
    rw [trackFields]
    split
    · rename_i heq
      rw [hpn] at heq
      exact Option.noConfusion heq
    · rename_i i2 field2 val2 ln12 heq
      rw [hpn] at heq
      simp only [Option.some.injEq, Prod.mk.injEq] at heq
      obtain ⟨rfl, rfl, rfl, rfl⟩ := heq
      simp +decide only [hf, if_true, if_false]

/-- C7 witness: in the document `FILE f` / `TRACK 1 AUDIO` the track is
closed by end of input with no `INDEX`; the track loop fails at line 1
(the `TRACK` line) by the theorem, and the error propagates unchanged to
`Parser::parse`. -/
theorem c7_witness :
    trackLoop ["FILE f".toList, "TRACK 1 AUDIO".toList] { file := "f".toList } 1
      = .err ⟨1, "track is missing a `INDEX` declaration"⟩ ∧
    parserParse ["FILE f".toList, "TRACK 1 AUDIO".toList]
      = .err ⟨1, "track is missing a `INDEX` declaration"⟩ := by
  have htf : trackFields ["FILE f".toList, "TRACK 1 AUDIO".toList] 1 { number := 1 } false 2
      = .ok ({ number := 1 }, false, 2, .eof) := by
    rw [trackFields]
    simp +decide only [show pNext ["FILE f".toList, "TRACK 1 AUDIO".toList] 2
      = none from by decide]
  have htl : trackLoop ["FILE f".toList, "TRACK 1 AUDIO".toList] { file := "f".toList } 1
      = .err ⟨1, "track is missing a `INDEX` declaration"⟩ :=
    c7_missing_index.1 ["FILE f".toList, "TRACK 1 AUDIO".toList] { file := "f".toList } 1 1
      "TRACK".toList " 1 AUDIO".toList 2 " AUDIO".toList "1".toList 1 { number := 1 } 2 .eof
      (by decide) (by decide) (by decide) htf
  refine ⟨htl, ?_⟩
  have hg : globalLoop ["FILE f".toList, "TRACK 1 AUDIO".toList] {} 0 = .ok ({}, 0) := by
    rw [globalLoop]
    simp +decide only [show pNext ["FILE f".toList, "TRACK 1 AUDIO".toList] 0
      = some (0, "FILE".toList, " f".toList, 1) from by decide]
  have hdf : discFields ["FILE f".toList, "TRACK 1 AUDIO".toList] { file := "f".toList } 1
      = .ok ({ file := "f".toList }, 1, .brk) := by
    rw [discFields]
    simp +decide only [show pNext ["FILE f".toList, "TRACK 1 AUDIO".toList] 1
      = some (1, "TRACK".toList, " 1 AUDIO".toList, 2) from by decide]
  have hpd : parse_disc ["FILE f".toList, "TRACK 1 AUDIO".toList] 0
      = .err ⟨1, "track is missing a `INDEX` declaration"⟩ := by
    simp +decide only [parse_disc,
      show pNext ["FILE f".toList, "TRACK 1 AUDIO".toList] 0
        = some (0, "FILE".toList, " f".toList, 1) from by decide,
      show parse_str (" f".toList) = .ok ([], "f".toList) from by decide,
      hdf, htl]
  have hdl : discLoop ["FILE f".toList, "TRACK 1 AUDIO".toList] {} 0
      = .err ⟨1, "track is missing a `INDEX` declaration"⟩ := by
    rw [discLoop]
    simp +decide only [dite_false, dite_true]
    split
    · rename_i e heq
      rw [hpd] at heq
      simp only [RResult.err.injEq] at heq
      rw [← heq]
    · rename_i heq
      rw [hpd] at heq; simp at heq
    · rename_i disc ln2 heq
      rw [hpd] at heq; simp at heq
  rw [parserParse]
  simp +decide only [hg, hdl]

/-- Lemma: `parse_val` on a trimmed remainder that is not wrapped in double
quotes returns the trimmed remainder verbatim. -/
theorem parse_val_unquoted {input : Str} (h1 : rustTrim input ≠ [])
    (h2 : ¬(1 < utf8Len (rustTrim input) ∧ (rustTrim input).head? = some '"'
      ∧ (rustTrim input).getLast? = some '"')) :
    parse_val input = .ok (rustTrim input) := by
  simp only [parse_val]
  rw [if_neg h1, if_neg h2]

/-- C8 counterexample: the claim says backslash escapes in unquoted
scalar values are decoded (`\n` → newline); in fact `parse_val` stores the
unquoted remainder verbatim, so the value `a\nb` keeps the two characters
`\` and `n` instead of a newline. -/
theorem c8_counterexample :
    parse_val ("a\\nb".toList) = .ok ("a\\nb".toList) ∧
    "a\\nb".toList ≠ "a\nb".toList := by
  constructor
  · decide
  · decide

/-- C8 amended: a scalar field value whose trimmed remainder is not a
double-quoted literal (does not both start and end with `"` with byte
length > 1) is stored verbatim after trimming: no backslash escape is
decoded, and in particular a trailing backslash is kept literally.
(Unquoted escape decoding exists only in `parse_str`, which scalar values
never reach on this path.) -/
theorem c8_amended (input : Str) (h1 : rustTrim input ≠ [])
    (h2 : ¬(1 < utf8Len (rustTrim input) ∧ (rustTrim input).head? = some '"'
      ∧ (rustTrim input).getLast? = some '"')) :
    parse_val input = .ok (rustTrim input) :=
  parse_val_unquoted h1 h2

/-- C8 witness: a value with an interior escape and a trailing backslash
is stored verbatim. -/
theorem c8_witness : parse_val ("a\\tb\\".toList) = .ok ("a\\tb\\".toList) :=
  c8_amended ("a\\tb\\".toList) (by decide) (by decide)

/-- C9 counterexample: the claim says a trimmed remainder beginning with
a double quote parses only as a complete quoted literal, an unterminated
quote being an error; in fact `"abc` (which starts with `"` but does not
end with one) is stored verbatim, quote included, with no error. -/
theorem c9_counterexample :
    parse_val ("\"abc".toList) = .ok ("\"abc".toList) ∧
    ("\"abc".toList).head? = some '"' := by
  constructor
  · decide
  · decide

/-- C9 amended: the quoted-literal path is taken only when the trimmed
remainder both begins and ends with `"` and has byte length > 1. On that
path, non-blank trailing content after the closing quote is the
"too many values in line" error and a failing literal parse (such as the
unterminated literal arising when the final quote is consumed by a
backslash escape) propagates its error; a remainder that begins with a
quote but is not so wrapped is stored verbatim without error. -/
theorem c9_amended :
    (∀ (input rest val : Str),
      (1 < utf8Len (rustTrim input) ∧ (rustTrim input).head? = some '"'
        ∧ (rustTrim input).getLast? = some '"') →
      parse_str (rustTrim input) = .ok (rest, val) →
      rustTrim rest ≠ [] →
      parse_val input = .err "too many values in line") ∧
    (∀ (input : Str) (e : String),
      (1 < utf8Len (rustTrim input) ∧ (rustTrim input).head? = some '"'
        ∧ (rustTrim input).getLast? = some '"') →
      parse_str (rustTrim input) = .err e →
      parse_val input = .err e) ∧
    (∀ input : Str, rustTrim input ≠ [] →
      (rustTrim input).head? = some '"' →
      ¬(1 < utf8Len (rustTrim input) ∧ (rustTrim input).head? = some '"'
        ∧ (rustTrim input).getLast? = some '"') →
      parse_val input = .ok (rustTrim input)) := by
  refine ⟨?_, ?_, ?_⟩
  · intro input rest val h2 hps hr
    have h1 : rustTrim input ≠ [] := by
      intro hc
      rw [hc] at h2
      simp [utf8Len] at h2
    simp only [parse_val]
    rw [if_neg h1, if_pos h2]
    simp only [hps]
    rw [if_neg hr]
  · intro input e h2 hps
    have h1 : rustTrim input ≠ [] := by
      intro hc
      rw [hc] at h2
      simp [utf8Len] at h2
    simp only [parse_val]
    rw [if_neg h1, if_pos h2]
    simp only [hps]
  · intro input h1 _ h2
    exact parse_val_unquoted h1 h2

/-- C9 witness: trailing content after a closing quote (when the
remainder still ends with a quote) is the "too many values" error; an
escaped final quote yields the unterminated-literal error. -/
theorem c9_witness :
    parse_val ("\"ab\" \"cd\"".toList) = .err "too many values in line" ∧
    parse_val ("\"ab\\\"".toList) = .err "unterminated double-quoted string" :=
  ⟨c9_amended.1 ("\"ab\" \"cd\"".toList) (" \"cd\"".toList) ("ab".toList)
      (by decide) (by decide) (by decide),
   c9_amended.2.1 ("\"ab\\\"".toList) "unterminated double-quoted string"
      (by decide) (by decide)⟩

theorem parse_u32_digits {f : Str} (h1 : f ≠ []) (h2 : ∀ c ∈ f, c.isDigit = true)
    (h3 : natOfDigits f < U32) : parse_u32 f = some (natOfDigits f) := by
  cases f with
  | nil => exact absurd rfl h1
  | cons c r =>
    have hc : c ≠ '+' := (digit_ne (h2 c (by simp))).2.2.1
    have hall : (c :: r).all Char.isDigit = true := List.all_eq_true.mpr h2
    have hhead : ((c :: r) : Str).head? ≠ some '+' := by simp [hc]
    simp only [parse_u32, parse_uint, if_neg hhead]
    rw [if_neg (by simp [hall]), if_pos h3]

/-- C10 counterexample: the claim says the track number is positive in
every successfully parsed `Track`; in fact `TRACK 0` parses successfully
(`u32` parsing accepts 0) and the stored number is 0. -/
theorem c10_counterexample :
    parserParse ["FILE f".toList, "TRACK 0 AUDIO".toList, "INDEX 01 0:0".toList]
      = .ok { discs := [{ file := "f".toList, tracks := [{ number := 0 }] }] } ∧
    ¬ 0 < ({ number := 0 } : Track).number := by
  refine ⟨?_, by decide⟩
  have hg : globalLoop ["FILE f".toList, "TRACK 0 AUDIO".toList, "INDEX 01 0:0".toList]
      {} 0 = .ok ({}, 0) := by
    rw [globalLoop]
    simp +decide only [show pNext ["FILE f".toList, "TRACK 0 AUDIO".toList,
      "INDEX 01 0:0".toList] 0 = some (0, "FILE".toList, " f".toList, 1) from by decide]
  have hdf : discFields ["FILE f".toList, "TRACK 0 AUDIO".toList, "INDEX 01 0:0".toList]
      { file := "f".toList } 1 = .ok ({ file := "f".toList }, 1, .brk) := by
    rw [discFields]
    simp +decide only [show pNext ["FILE f".toList, "TRACK 0 AUDIO".toList,
      "INDEX 01 0:0".toList] 1 = some (1, "TRACK".toList, " 0 AUDIO".toList, 2) from by decide]
  have htf2 : trackFields ["FILE f".toList, "TRACK 0 AUDIO".toList, "INDEX 01 0:0".toList]
      1 { number := 0 } true 3 = .ok ({ number := 0 }, true, 3, .eof) := by
    rw [trackFields]
    simp +decide only [show pNext ["FILE f".toList, "TRACK 0 AUDIO".toList,
      "INDEX 01 0:0".toList] 3 = none from by decide]
  have htf1 : trackFields ["FILE f".toList, "TRACK 0 AUDIO".toList, "INDEX 01 0:0".toList]
      1 { number := 0 } false 2 = .ok ({ number := 0 }, true, 3, .eof) := by
    rw [trackFields]
    split
    · rename_i heq
      exact absurd heq (by decide)
    · rename_i i field val ln1 heq
      rw [show pNext ["FILE f".toList, "TRACK 0 AUDIO".toList, "INDEX 01 0:0".toList] 2
        = some (2, "INDEX".toList, " 01 0:0".toList, 3) from by decide] at heq
      simp only [Option.some.injEq, Prod.mk.injEq] at heq
      obtain ⟨rfl, rfl, rfl, rfl⟩ := heq
      simp +decide only [show parse_index (" 01 0:0".toList) = .ok 0 from by decide]
      exact htf2
  have htl : trackLoop ["FILE f".toList, "TRACK 0 AUDIO".toList, "INDEX 01 0:0".toList]
      { file := "f".toList } 1
      = .ok ({ file := "f".toList, tracks := [{ number := 0 }] }, 3) := by
    rw [trackLoop]
    split
    · rename_i heq
      exact absurd heq (by decide)
    · rename_i i field val ln1 heq
      rw [show pNext ["FILE f".toList, "TRACK 0 AUDIO".toList, "INDEX 01 0:0".toList] 1
        = some (1, "TRACK".toList, " 0 AUDIO".toList, 2) from by decide] at heq
      simp only [Option.some.injEq, Prod.mk.injEq] at heq
      obtain ⟨rfl, rfl, rfl, rfl⟩ := heq
      simp +decide only [show parse_str (" 0 AUDIO".toList)
          = .ok (" AUDIO".toList, "0".toList) from by decide,
        show parse_u32 ("0".toList) = some 0 from by decide]
      split
      · rename_i e heq2
        rw [htf1] at heq2; simp at heq2
      · rename_i heq2
        rw [htf1] at heq2; simp at heq2
      · rename_i track have_index ln2 ex heq2
        rw [htf1] at heq2
        simp at heq2
        obtain ⟨h1, h2, h3, h4⟩ := heq2
        subst h1; subst h2; subst h3; subst h4
        simp +decide only []
        rw [trackLoop]
        decide
  have hpd : parse_disc ["FILE f".toList, "TRACK 0 AUDIO".toList, "INDEX 01 0:0".toList] 0
      = .ok ({ file := "f".toList, tracks := [{ number := 0 }] }, 3) := by
    simp +decide only [parse_disc,
      show pNext ["FILE f".toList, "TRACK 0 AUDIO".toList, "INDEX 01 0:0".toList] 0
        = some (0, "FILE".toList, " f".toList, 1) from by decide,
      show parse_str (" f".toList) = .ok ([], "f".toList) from by decide,
      hdf, htl]
  have hdl2 : discLoop ["FILE f".toList, "TRACK 0 AUDIO".toList, "INDEX 01 0:0".toList]
      { discs := [{ file := "f".toList, tracks := [{ number := 0 }] }] } 3
      = .ok { discs := [{ file := "f".toList, tracks := [{ number := 0 }] }] } := by
    rw [discLoop]
    simp +decide only []
  have hdl : discLoop ["FILE f".toList, "TRACK 0 AUDIO".toList, "INDEX 01 0:0".toList] {} 0
      = .ok { discs := [{ file := "f".toList, tracks := [{ number := 0 }] }] } := by
    rw [discLoop]
    simp +decide only [dite_false, dite_true, List.nil_append]
    split
    · rename_i e heq
      rw [hpd] at heq; simp at heq
    · rename_i heq
      rw [hpd] at heq; simp at heq
    · rename_i disc ln2 heq
      rw [hpd] at heq
      simp at heq
      obtain ⟨h1, h2⟩ := heq
      subst h1; subst h2
      exact hdl2
  rw [parserParse]
  simp +decide only [hg, hdl]

/-- C10 amended: the `TRACK` value's first token (via the quoted/unquoted
string rule) is parsed as an unsigned 32-bit integer; a token that fails
that parse makes the parse fail with "invalid track number" at the
`TRACK` line; on success the stored number equals the declared value —
zero included, positivity is not validated — and the field loop never
changes it. -/
theorem c10_amended :
    (∀ (lines : List Str) (disc : Disc) (ln i : Nat) (field val : Str) (ln1 : Nat)
        (rest no : Str),
      pNext lines ln = some (i, field, val, ln1) →
      parse_str val = .ok (rest, no) →
      parse_u32 no = none →
      trackLoop lines disc ln = .err ⟨i, "invalid track number"⟩) ∧
    (∀ (lines : List Str) (tln : Nat) (tr : Track) (hi : Bool) (ln : Nat) (tr2 : Track)
        (hi2 : Bool) (ln2 : Nat) (ex : LoopExit),
      trackFields lines tln tr hi ln = .ok (tr2, hi2, ln2, ex) →
      tr2.number = tr.number) ∧
    (∀ ds : Str, ds ≠ [] → (∀ c ∈ ds, c.isDigit = true) → natOfDigits ds < U32 →
      parse_u32 ds = some (natOfDigits ds)) := by
  refine ⟨?_, ?_, ?_⟩
  · intro lines disc ln i field val ln1 rest no hpn hps hn
    rw [trackLoop]
    split
    · rename_i heq
      rw [hpn] at heq
      exact Option.noConfusion heq
    · rename_i i2 field2 val2 ln12 heq
      rw [hpn] at heq
      simp only [Option.some.injEq, Prod.mk.injEq] at heq
      obtain ⟨rfl, rfl, rfl, rfl⟩ := heq
      simp only [hps, hn]
  · intro lines tln tr hi ln tr2 hi2 ln2 ex h
    exact trackFields_number (lines.length - ln) (Nat.le_refl _) h
  · intro ds h1 h2 h3
    exact parse_u32_digits h1 h2 h3

/-- C10 witness: a non-numeric token fails with "invalid track number" at
the `TRACK` line; a numeric token stores its declared value. -/
theorem c10_witness :
    trackLoop ["TRACK x AUDIO".toList] {} 0 = .err ⟨0, "invalid track number"⟩ ∧
    parse_u32 ("07".toList) = some 7 :=
  ⟨c10_amended.1 ["TRACK x AUDIO".toList] {} 0 0 "TRACK".toList " x AUDIO".toList 1
      " AUDIO".toList "x".toList (by decide) (by decide) (by decide),
   c10_amended.2.2 ("07".toList) (by decide) (by decide) (by decide)⟩

end Hermes
